import Mathlib

/-!
Shallow embedding of the snapshot-interpolation engine
(src/ema.rs, src/settings.rs, src/snapshot.rs, src/interpolate.rs).

Machine floats (f32 / f64) are modelled as real numbers; the local
monotonic clock (std::time::Instant) is modelled by an explicit real
"now" parameter threaded through the operations that read it; the
u128 wrapping counter is modelled as a natural number reduced modulo
2 ^ 128.  Snapshot values (the generic parameter T with its Snapshot
trait) are modelled by a type T together with explicit functions
rt : T → ℝ for remote_time and interp : ℝ → T → T → T for interpolate.
-/

namespace SnapInterp

open Classical

noncomputable section

/-- Model of ExponentialMovingAverage (src/ema.rs). -/
structure ExponentialMovingAverage where
  alpha : ℝ
  var : ℝ
  std_dev : ℝ
  value : Option ℝ

/-- ExponentialMovingAverage::new (src/ema.rs lines 12-19). -/
def ExponentialMovingAverage.new (n : ℝ) : ExponentialMovingAverage :=
  { alpha := 2 / (n + 1), var := 0, std_dev := 0, value := none }

/-- ExponentialMovingAverage::add (src/ema.rs lines 21-30). -/
def ExponentialMovingAverage.add (e : ExponentialMovingAverage) (v : ℝ) :
    ExponentialMovingAverage :=
  match e.value with
  | some value =>
    let delta := v - value
    let var1 := (1 - e.alpha) * (e.var + e.alpha * delta * delta)
    { alpha := e.alpha, var := var1, std_dev := Real.sqrt var1,
      value := some (value + e.alpha * delta) }
  | none => { e with value := some v }

/-- ExponentialMovingAverage::reset (src/ema.rs lines 32-36). -/
def ExponentialMovingAverage.reset (e : ExponentialMovingAverage) :
    ExponentialMovingAverage :=
  { e with value := none, var := 0, std_dev := 0 }

/-- Model of Settings (src/settings.rs). -/
structure Settings where
  buf_duration : ℝ
  period : ℝ
  dynamic_playback_time : Bool
  dynamic_playback_jitter_duration : ℝ
  playback_offset_periods : ℝ
  playback_clamp_periods : ℝ
  playback_slow_periods : ℝ
  playback_slow_speed : ℝ
  playback_fast_periods : ℝ
  playback_fast_speed : ℝ

/-- Settings::default (src/settings.rs lines 45-63). -/
def SNAPSHOT_SETTINGS_DEFAULT : Settings :=
  { buf_duration := 2
    period := 200 / 1000
    dynamic_playback_time := true
    dynamic_playback_jitter_duration := 2
    playback_clamp_periods := 1
    playback_fast_periods := 1 / 2
    playback_fast_speed := 1 + 2 / 100
    playback_slow_periods := -(1 / 2)
    playback_slow_speed := 1 - 4 / 100
    playback_offset_periods := 1 }

/-- Settings::playback_offset (src/settings.rs lines 66-68). -/
def Settings.playback_offset (s : Settings) : ℝ :=
  s.period * s.playback_offset_periods

/-- Settings::playback_clamp (src/settings.rs lines 70-72). -/
def Settings.playback_clamp (s : Settings) : ℝ :=
  s.period * s.playback_clamp_periods

/-- Settings::fast_threshold (src/settings.rs lines 74-76). -/
def Settings.fast_threshold (s : Settings) : ℝ :=
  s.period * s.playback_fast_periods

/-- Settings::slow_threshold (src/settings.rs lines 78-80). -/
def Settings.slow_threshold (s : Settings) : ℝ :=
  s.period * s.playback_slow_periods

/-- Settings::send_rate (src/settings.rs lines 83-85). -/
def Settings.send_rate (s : Settings) : ℝ :=
  1 / s.period

/-- linear_map (src/snapshot.rs lines 36-38). -/
def linear_map (x a b c d : ℝ) : ℝ :=
  c + (x - a) * (d - c) / (b - a)

/-- f64::clamp as used at src/interpolate.rs line 283. -/
def fclamp (x lo hi : ℝ) : ℝ :=
  if x < lo then lo else if x > hi then hi else x

/-- Model of Buffer (src/interpolate.rs lines 15-30).  The snapshot list
is kept front = newest at the head, matching the VecDeque.  The Instant
field is a real number on the local clock axis. -/
structure Buffer (T : Type) where
  settings : Settings
  buf : List T
  buf_len : ℕ
  last_remote_time : ℝ
  last_remote_instant : ℝ
  last_remote_counter : ℕ
  remote_delta_time : ExponentialMovingAverage

/-- Buffer::new (src/interpolate.rs lines 77-95); the Instant::now()
read is the explicit argument now. -/
def Buffer.new (T : Type) (s : Settings) (now : ℝ) : Buffer T :=
  { settings := s
    buf := []
    buf_len := (Int.ceil (s.send_rate * s.buf_duration)).toNat
    last_remote_time := 0
    last_remote_instant := now
    last_remote_counter := 0
    remote_delta_time :=
      ExponentialMovingAverage.new (s.send_rate * s.dynamic_playback_jitter_duration) }

/-- Buffer::latest (src/interpolate.rs lines 98-100). -/
def Buffer.latest {T : Type} (b : Buffer T) : Option T :=
  b.buf.head?

/-- Iterator::position over the deque front to back: index of the first
element satisfying p (used at src/interpolate.rs lines 149-153 and 197-200). -/
def findPos {T : Type} (p : T → Prop) : List T → Option ℕ
  | [] => none
  | s :: rest => if p s then some 0 else (findPos p rest).map (· + 1)

/-- Buffer::insert (src/interpolate.rs lines 138-164): skip duplicates,
insert at the position of the first strictly older element (at the
front slot when the buffer is empty, at the back when the new snapshot
is the oldest), then evict the back when over capacity. -/
def Buffer.insert {T : Type} (rt : T → ℝ) (b : Buffer T) (item : T) : Buffer T :=
  if ∃ s ∈ b.buf, rt s = rt item then b
  else
    let buf1 :=
      match findPos (fun s => rt s < rt item) b.buf with
      | some position => b.buf.insertIdx position item
      | none => if b.buf = [] then [item] else b.buf ++ [item]
    let buf2 := if buf1.length > b.buf_len then buf1.dropLast else buf1
    { b with buf := buf2 }

/-- Buffer::insert_snapshot (src/interpolate.rs lines 103-120): insert,
then — whenever the buffer is non-empty — feed the front-to-second gap
into remote_delta_time and update last_remote_time, last_remote_instant
and the wrapping last_remote_counter. -/
def Buffer.insert_snapshot {T : Type} (rt : T → ℝ) (b : Buffer T) (now : ℝ)
    (snapshot : T) : Buffer T :=
  let b1 := Buffer.insert rt b snapshot
  match b1.buf with
  | [] => b1
  | ss_to :: rest =>
    let b2 :=
      match rest with
      | [] => b1
      | ss_from :: _ =>
        { b1 with remote_delta_time :=
            b1.remote_delta_time.add (rt ss_to - rt ss_from) }
    { b2 with
      last_remote_instant := now
      last_remote_time := rt ss_to
      last_remote_counter := (b2.last_remote_counter + 1) % 2 ^ 128 }

/-- Buffer::dynamic_playback_offset (src/interpolate.rs lines 125-134). -/
def Buffer.dynamic_playback_offset {T : Type} (b : Buffer T) : ℝ :=
  let playback_offset := b.settings.playback_offset
  if b.settings.dynamic_playback_time then
    playback_offset + b.remote_delta_time.std_dev
  else
    playback_offset

/-- Model of Playback (src/interpolate.rs lines 39-74); the PhantomData
field is dropped, so the structure needs no type parameter. -/
structure Playback where
  settings : Settings
  remote_counter : ℕ
  playback_time : ℝ
  timescale : ℝ
  catchup_time : ExponentialMovingAverage
  db_extrapolating_ema : ExponentialMovingAverage
  db_clamping_ema : ExponentialMovingAverage
  db_scaling_ema : ExponentialMovingAverage

/-- Playback::new (src/interpolate.rs lines 168-185). -/
def Playback.new {T : Type} (b : Buffer T) : Playback :=
  let s := b.settings
  let send_rate := s.send_rate
  { settings := s
    remote_counter := b.last_remote_counter
    playback_time := 0
    timescale := 1
    catchup_time := ExponentialMovingAverage.new send_rate
    db_extrapolating_ema := ExponentialMovingAverage.new (send_rate * 10)
    db_clamping_ema := ExponentialMovingAverage.new (send_rate * 10)
    db_scaling_ema := ExponentialMovingAverage.new (send_rate * 10) }

/-- The clamping block of Playback::step (src/interpolate.rs lines
249-262): clamp pt into the closed interval from lo to hi and feed the
clamping EMA 1.0 exactly when a clamp fired. -/
def clampStage (ema : ExponentialMovingAverage) (pt lo hi : ℝ) :
    ℝ × ExponentialMovingAverage :=
  if pt < lo then (lo, ema.add 1)
  else if pt > hi then (hi, ema.add 1)
  else (pt, ema.add 0)

/-- Playback::timescale (src/interpolate.rs lines 291-304); returns the
new timescale together with the updated db_scaling_ema it feeds.  Named
apart because the Playback structure already has a timescale field. -/
def timescale_update (s : Settings) (ema : ExponentialMovingAverage)
    (catchup_time : ℝ) : ℝ × ExponentialMovingAverage :=
  if catchup_time < s.slow_threshold then (s.playback_slow_speed, ema.add 1)
  else if catchup_time > s.fast_threshold then (s.playback_fast_speed, ema.add 1)
  else (1, ema.add 0)

/-- The snapshot-pair selection of Playback::step (src/interpolate.rs
lines 202-237), as a function of the position computed at lines 197-200. -/
def selectPair {T : Type} (l : List T) : Option ℕ → Option (T × T)
  | none => none
  | some 0 =>
    match l.get? 1, l.get? 0 with
    | some ss_from, some ss_to => some (ss_from, ss_to)
    | _, _ => none
  | some (k + 1) =>
    match l.get? (k + 1), l.get? k with
    | some ss_from, some ss_to => some (ss_from, ss_to)
    | _, _ => none

/-- The state-updating part of Playback::step (src/interpolate.rs lines
193-271): advance playback_time by delta_time times timescale, then —
only when a new remote counter is observed — run the clamp, the
catch-up EMA feed and the timescale recomputation.  The
Instant-elapsed read at line 247 is now minus last_remote_instant. -/
def Playback.stepState {T : Type} (rt : T → ℝ) (p : Playback)
    (delta_time now : ℝ) (b : Buffer T) : Playback :=
  let playback_offset := b.dynamic_playback_offset
  let playback_clamp := p.settings.playback_clamp
  let pt := p.playback_time + delta_time * p.timescale
  let ss_from_pos := findPos (fun s => rt s < pt) b.buf
  let extrapolating : ℝ :=
    match ss_from_pos with
    | none => 1
    | some 0 => 1
    | some (_ + 1) => 0
  if p.remote_counter ≠ b.last_remote_counter then
    let remote_time := b.last_remote_time + (now - b.last_remote_instant)
    let playback_target_time := remote_time - playback_offset
    let pc := clampStage p.db_clamping_ema pt
      (playback_target_time - playback_clamp)
      (playback_target_time + playback_clamp)
    let catchup_time := playback_target_time - pc.1
    let catchup_ema := p.catchup_time.add catchup_time
    let ts := timescale_update p.settings p.db_scaling_ema
      (catchup_ema.value.getD 0)
    { p with
      remote_counter := b.last_remote_counter
      playback_time := pc.1
      db_clamping_ema := pc.2
      db_extrapolating_ema := p.db_extrapolating_ema.add extrapolating
      catchup_time := catchup_ema
      timescale := ts.1
      db_scaling_ema := ts.2 }
  else { p with playback_time := pt }

/-- Playback::step (src/interpolate.rs lines 189-289): run the state
update above, then interpolate between the bracketing pair selected
with the advanced (pre-clamp) playback time, falling back to the
newest snapshot when no pair was formed. -/
def Playback.step {T : Type} (rt : T → ℝ) (interp : ℝ → T → T → T)
    (p : Playback) (delta_time now : ℝ) (b : Buffer T) : Playback × Option T :=
  let pt := p.playback_time + delta_time * p.timescale
  let ss_from_pos := findPos (fun s => rt s < pt) b.buf
  let snapshots := selectPair b.buf ss_from_pos
  let p1 := Playback.stepState rt p delta_time now b
  let out :=
    match snapshots with
    | some (ss_from, ss_to) =>
      let t := linear_map p1.playback_time (rt ss_from) (rt ss_to) 0 1
      some (interp (fclamp t 0 (5 / 2)) ss_from ss_to)
    | none => b.latest
  (p1, out)

/-- Concrete snapshot type mirroring TestSnapshot (src/test.rs lines 5-19). -/
structure TestSnap where
  time : ℝ
  num : ℕ

/-- Fused form of the ordered-insertion step of Buffer::insert: place the
item right before the first strictly older element, at the back when every
element is newer, used to restate the find-position-then-insert code. -/
def insertOrdered {T : Type} (rt : T → ℝ) (item : T) : List T → List T
  | [] => [item]
  | s :: rest =>
    if rt s < rt item then item :: s :: rest else s :: insertOrdered rt item rest

/-- Strictly descending remote times front to back, the buffer ordering
invariant. -/
abbrev DescendingRT {T : Type} (rt : T → ℝ) (l : List T) : Prop :=
  l.Pairwise (fun a b => rt b < rt a)

/-- Buffer well-formedness: ordering plus the capacity bound. -/
abbrev BufferWF {T : Type} (rt : T → ℝ) (b : Buffer T) : Prop :=
  DescendingRT rt b.buf ∧ b.buf.length ≤ b.buf_len

/-- A sequence of insert_snapshot calls, each with its own local clock
reading. -/
def applyInserts {T : Type} (rt : T → ℝ) (b : Buffer T) : List (ℝ × T) → Buffer T
  | [] => b
  | (now, x) :: rest => applyInserts rt (Buffer.insert_snapshot rt b now x) rest

/-- Concrete settings used to instantiate the universally quantified
theorems on explicit inputs: one send per second, three seconds of
buffered history, jitter adaptation off. -/
def wSet : Settings :=
  { buf_duration := 3
    period := 1
    dynamic_playback_time := false
    dynamic_playback_jitter_duration := 2
    playback_offset_periods := 1
    playback_clamp_periods := 1
    playback_slow_periods := -(1 / 2)
    playback_slow_speed := 96 / 100
    playback_fast_periods := 1 / 2
    playback_fast_speed := 102 / 100 }

/-- Concrete one-snapshot buffer. -/
def wB1 : Buffer TestSnap :=
  { settings := wSet
    buf := [⟨10, 1⟩]
    buf_len := 10
    last_remote_time := 10
    last_remote_instant := 0
    last_remote_counter := 5
    remote_delta_time := ExponentialMovingAverage.new 2 }

/-- Concrete full buffer at capacity three. -/
def wB3 : Buffer TestSnap :=
  { settings := wSet
    buf := [⟨3, 3⟩, ⟨2, 2⟩, ⟨1, 1⟩]
    buf_len := 3
    last_remote_time := 3
    last_remote_instant := 0
    last_remote_counter := 5
    remote_delta_time := ExponentialMovingAverage.new 2 }

/-- Concrete two-snapshot buffer for the playback-step instantiations:
remote times 4 and 2, counter ahead of the playback below. -/
def wB2 : Buffer TestSnap :=
  { settings := wSet
    buf := [⟨4, 2⟩, ⟨2, 1⟩]
    buf_len := 3
    last_remote_time := 4
    last_remote_instant := 10
    last_remote_counter := 7
    remote_delta_time := ExponentialMovingAverage.new 2 }

/-- Concrete playback state whose counter lags the buffer above. -/
def wP : Playback :=
  { settings := wSet
    remote_counter := 3
    playback_time := 3
    timescale := 1
    catchup_time := ExponentialMovingAverage.new 1
    db_extrapolating_ema := ExponentialMovingAverage.new 10
    db_clamping_ema := ExponentialMovingAverage.new 10
    db_scaling_ema := ExponentialMovingAverage.new 10 }

/-- Concrete interpolation function (mirrors the TestSnapshot
implementation in src/test.rs, which returns the to snapshot). -/
def winterp : ℝ → TestSnap → TestSnap → TestSnap := fun _ _ b => b

/-- An operation on an ExponentialMovingAverage: either add a sample or
reset. -/
inductive EmaOp where
  | add (v : ℝ)
  | reset

/-- Run a sequence of EMA operations from a starting state. -/
def runOps (e : ExponentialMovingAverage) : List EmaOp → ExponentialMovingAverage
  | [] => e
  | EmaOp.add v :: rest => runOps (e.add v) rest
  | EmaOp.reset :: rest => runOps e.reset rest

end

theorem findPos_nil {T : Type} (p : T → Prop) : findPos p [] = none := rfl

theorem findPos_cons {T : Type} (p : T → Prop) (s : T) (rest : List T) :
    findPos p (s :: rest) =
      if p s then some 0 else (findPos p rest).map (· + 1) := rfl

theorem insertBody_eq_insertOrdered {T : Type} (rt : T → ℝ) (item : T)
    (l : List T) :
    (match findPos (fun s => rt s < rt item) l with
      | some position => l.insertIdx position item
      | none => if l = [] then [item] else l ++ [item]) =
      insertOrdered rt item l := by
  induction l with
  | nil => simp [findPos, insertOrdered]
  | cons s rest ih =>
    by_cases h : rt s < rt item
    · simp [findPos_cons, h, insertOrdered, List.insertIdx_zero]
    · rw [insertOrdered, if_neg h]
      rw [findPos_cons, if_neg h]
      cases hr : findPos (fun s => rt s < rt item) rest with
      | none =>
        rw [hr] at ih
        simp only [hr, Option.map_none']
        cases rest with
        | nil => simp [insertOrdered]
        | cons a as =>
          simp only [reduceCtorEq, if_false, List.cons_append, List.cons.injEq,
            true_and] at ih ⊢
          exact ih
      | some i =>
        rw [hr] at ih
        simp only [hr, Option.map_some', List.insertIdx_succ_cons,
          List.cons.injEq, true_and]
        exact ih

theorem Buffer.insert_of_dup {T : Type} (rt : T → ℝ) (b : Buffer T) (item : T)
    (h : ∃ s ∈ b.buf, rt s = rt item) : Buffer.insert rt b item = b := by
  rw [Buffer.insert, if_pos h]

theorem Buffer.insert_of_new {T : Type} (rt : T → ℝ) (b : Buffer T) (item : T)
    (h : ¬ ∃ s ∈ b.buf, rt s = rt item) :
    Buffer.insert rt b item =
      { b with buf :=
          if (insertOrdered rt item b.buf).length > b.buf_len then
            (insertOrdered rt item b.buf).dropLast
          else insertOrdered rt item b.buf } := by
  rw [Buffer.insert, if_neg h]
  rw [insertBody_eq_insertOrdered rt item b.buf]

theorem mem_insertOrdered {T : Type} (rt : T → ℝ) (item : T) (l : List T)
    (y : T) : y ∈ insertOrdered rt item l ↔ y = item ∨ y ∈ l := by
  induction l with
  | nil => simp [insertOrdered]
  | cons s rest ih =>
    rw [insertOrdered]
    by_cases h : rt s < rt item
    · simp only [if_pos h, List.mem_cons]
    · simp only [if_neg h, List.mem_cons, ih]
      tauto

theorem length_insertOrdered {T : Type} (rt : T → ℝ) (item : T) (l : List T) :
    (insertOrdered rt item l).length = l.length + 1 := by
  induction l with
  | nil => simp [insertOrdered]
  | cons s rest ih =>
    rw [insertOrdered]
    by_cases h : rt s < rt item
    · simp [if_pos h]
    · simp only [if_neg h, List.length_cons, ih]

theorem insertOrdered_ne_nil {T : Type} (rt : T → ℝ) (item : T) (l : List T) :
    insertOrdered rt item l ≠ [] := by
  intro hc
  have := length_insertOrdered rt item l
  rw [hc] at this
  simp at this

theorem pairwise_insertOrdered {T : Type} (rt : T → ℝ) (item : T) (l : List T)
    (hne : ∀ s ∈ l, rt s ≠ rt item) (hp : DescendingRT rt l) :
    DescendingRT rt (insertOrdered rt item l) := by
  induction l with
  | nil => simp [insertOrdered]
  | cons s rest ih =>
    replace hp := List.pairwise_cons.mp hp
    rw [insertOrdered]
    by_cases h : rt s < rt item
    · rw [if_pos h]
      refine List.Pairwise.cons ?_ (List.Pairwise.cons hp.1 hp.2)
      intro b hb
      rcases List.mem_cons.mp hb with hb | hb
      · rw [hb]; exact h
      · exact lt_trans (hp.1 b hb) h
    · rw [if_neg h]
      have hsi : rt item < rt s :=
        lt_of_le_of_ne (not_lt.mp h)
          (fun he => hne s (List.mem_cons_self s rest) he.symm)
      refine List.Pairwise.cons ?_
        (ih (fun t ht => hne t (List.mem_cons_of_mem s ht)) hp.2)
      intro b hb
      rcases (mem_insertOrdered rt item rest b).mp hb with hb | hb
      · rw [hb]; exact hsi
      · exact hp.1 b hb

theorem descending_dropLast {T : Type} (rt : T → ℝ) (l : List T)
    (h : DescendingRT rt l) : DescendingRT rt l.dropLast :=
  List.Pairwise.sublist (List.dropLast_sublist l) h

theorem getLast?_min_of_descending {T : Type} (rt : T → ℝ) (l : List T)
    (h : DescendingRT rt l) :
    ∀ y, l.getLast? = some y → ∀ s ∈ l, rt y ≤ rt s := by
  induction l with
  | nil => intro y hy; simp at hy
  | cons a as ih =>
    intro y hy s hs
    have h' := List.pairwise_cons.mp h
    cases as with
    | nil =>
      simp only [List.getLast?_singleton, Option.some.injEq] at hy
      simp only [List.mem_singleton] at hs
      rw [hs, ← hy]
    | cons b bs =>
      have hy2 : (b :: bs).getLast? = some y := by
        rw [List.getLast?_cons_cons] at hy
        exact hy
      rcases List.mem_cons.mp hs with hsa | hsas
      · have hym : y ∈ b :: bs := by
          rcases List.mem_getLast?_eq_getLast (Option.mem_def.mpr hy2) with ⟨hne, hx⟩
          rw [hx]
          exact List.getLast_mem hne
        rw [hsa]
        exact le_of_lt (h'.1 y hym)
      · exact ih h'.2 y hy2 s hsas

theorem Buffer.insert_snapshot_buf {T : Type} (rt : T → ℝ) (b : Buffer T)
    (now : ℝ) (x : T) :
    (Buffer.insert_snapshot rt b now x).buf = (Buffer.insert rt b x).buf := by
  simp only [Buffer.insert_snapshot]
  split
  · rfl
  · split
    · rfl
    · rfl

theorem Buffer.insert_buf_len {T : Type} (rt : T → ℝ) (b : Buffer T) (x : T) :
    (Buffer.insert rt b x).buf_len = b.buf_len := by
  by_cases hd : ∃ s ∈ b.buf, rt s = rt x
  · rw [Buffer.insert_of_dup rt b x hd]
  · rw [Buffer.insert_of_new rt b x hd]

theorem Buffer.insert_snapshot_buf_len {T : Type} (rt : T → ℝ) (b : Buffer T)
    (now : ℝ) (x : T) :
    (Buffer.insert_snapshot rt b now x).buf_len = b.buf_len := by
  simp only [Buffer.insert_snapshot]
  split
  · exact Buffer.insert_buf_len rt b x
  · split
    · exact Buffer.insert_buf_len rt b x
    · exact Buffer.insert_buf_len rt b x

theorem Buffer.insert_wf {T : Type} (rt : T → ℝ) (b : Buffer T) (x : T)
    (h : BufferWF rt b) : BufferWF rt (Buffer.insert rt b x) := by
  by_cases hd : ∃ s ∈ b.buf, rt s = rt x
  · rw [Buffer.insert_of_dup rt b x hd]; exact h
  · rw [Buffer.insert_of_new rt b x hd]
    have hne : ∀ s ∈ b.buf, rt s ≠ rt x := by
      push_neg at hd
      exact hd
    constructor
    · show DescendingRT rt
        (if (insertOrdered rt x b.buf).length > b.buf_len then
          (insertOrdered rt x b.buf).dropLast else insertOrdered rt x b.buf)
      by_cases hl : (insertOrdered rt x b.buf).length > b.buf_len
      · rw [if_pos hl]
        exact descending_dropLast rt _ (pairwise_insertOrdered rt x b.buf hne h.1)
      · rw [if_neg hl]
        exact pairwise_insertOrdered rt x b.buf hne h.1
    · show (if (insertOrdered rt x b.buf).length > b.buf_len then
          (insertOrdered rt x b.buf).dropLast else
            insertOrdered rt x b.buf).length ≤ b.buf_len
      by_cases hl : (insertOrdered rt x b.buf).length > b.buf_len
      · rw [if_pos hl, List.length_dropLast, length_insertOrdered]
        simpa using h.2
      · rw [if_neg hl]
        exact not_lt.mp hl

theorem Buffer.insert_snapshot_wf {T : Type} (rt : T → ℝ) (b : Buffer T)
    (now : ℝ) (x : T) (h : BufferWF rt b) :
    BufferWF rt (Buffer.insert_snapshot rt b now x) := by
  have h1 := Buffer.insert_wf rt b x h
  constructor
  · rw [Buffer.insert_snapshot_buf]
    exact h1.1
  · rw [Buffer.insert_snapshot_buf, Buffer.insert_snapshot_buf_len]
    rw [← Buffer.insert_buf_len rt b x]
    exact h1.2

theorem Buffer.new_wf {T : Type} (rt : T → ℝ) (s : Settings) (now : ℝ) :
    BufferWF rt (Buffer.new T s now) :=
  ⟨List.Pairwise.nil, Nat.zero_le _⟩

theorem applyInserts_wf {T : Type} (rt : T → ℝ) (b : Buffer T)
    (ins : List (ℝ × T)) (h : BufferWF rt b) :
    BufferWF rt (applyInserts rt b ins) := by
  induction ins generalizing b with
  | nil => exact h
  | cons p rest ih =>
    exact ih _ (Buffer.insert_snapshot_wf rt b p.1 p.2 h)

theorem applyInserts_buf_len {T : Type} (rt : T → ℝ) (b : Buffer T)
    (ins : List (ℝ × T)) :
    (applyInserts rt b ins).buf_len = b.buf_len := by
  induction ins generalizing b with
  | nil => rfl
  | cons p rest ih =>
    rw [applyInserts, ih, Buffer.insert_snapshot_buf_len]

/-- C6: after every sequence of insert_snapshot calls starting from
Buffer::new, the snapshot list is strictly descending in remote_time
front to back and its length stays within the capacity
ceil(send_rate times buf_duration); moreover, whenever an insertion
overflows the capacity, the element evicted is the back of the extended
list, which has the minimal remote_time of all held snapshots. -/
theorem C6_buffer_invariant {T : Type} (rt : T → ℝ) (s : Settings) (now0 : ℝ)
    (inserts : List (ℝ × T)) :
    (DescendingRT rt (applyInserts rt (Buffer.new T s now0) inserts).buf ∧
      (applyInserts rt (Buffer.new T s now0) inserts).buf.length ≤
        (Int.ceil (s.send_rate * s.buf_duration)).toNat) ∧
    ∀ (b : Buffer T) (x : T) (now : ℝ), BufferWF rt b →
      (¬ ∃ t ∈ b.buf, rt t = rt x) →
      (insertOrdered rt x b.buf).length > b.buf_len →
      (Buffer.insert_snapshot rt b now x).buf =
        (insertOrdered rt x b.buf).dropLast ∧
      ∀ y, (insertOrdered rt x b.buf).getLast? = some y →
        ∀ t ∈ insertOrdered rt x b.buf, rt y ≤ rt t := by
  constructor
  · have hw := applyInserts_wf rt (Buffer.new T s now0) inserts
      (Buffer.new_wf rt s now0)
    refine ⟨hw.1, ?_⟩
    have hlen := applyInserts_buf_len rt (Buffer.new T s now0) inserts
    have h2 := hw.2
    rw [hlen] at h2
    exact h2
  · intro b x now hwf hdup hover
    have hne : ∀ t ∈ b.buf, rt t ≠ rt x := by
      push_neg at hdup
      exact hdup
    constructor
    · rw [Buffer.insert_snapshot_buf, Buffer.insert_of_new rt b x hdup]
      show (if (insertOrdered rt x b.buf).length > b.buf_len then
          (insertOrdered rt x b.buf).dropLast else insertOrdered rt x b.buf) =
        (insertOrdered rt x b.buf).dropLast
      rw [if_pos hover]
    · exact getLast?_min_of_descending rt _
        (pairwise_insertOrdered rt x b.buf hne hwf.1)

/-- C6 witness: the eviction clause evaluated on the concrete full
buffer of capacity three receiving a fourth, newest snapshot. -/
theorem C6_buffer_invariant_w :
    (Buffer.insert_snapshot TestSnap.time wB3 0 ⟨4, 4⟩).buf =
      (insertOrdered TestSnap.time ⟨4, 4⟩ wB3.buf).dropLast :=
  ((C6_buffer_invariant TestSnap.time wSet 0 []).2 wB3 ⟨4, 4⟩ 0
    ⟨by norm_num [wB3, List.pairwise_cons], by norm_num [wB3]⟩
    (by norm_num [wB3])
    (by rw [length_insertOrdered]; norm_num [wB3])).1

theorem Buffer.insert_meta {T : Type} (rt : T → ℝ) (b : Buffer T) (x : T) :
    (Buffer.insert rt b x).last_remote_time = b.last_remote_time ∧
    (Buffer.insert rt b x).last_remote_instant = b.last_remote_instant ∧
    (Buffer.insert rt b x).last_remote_counter = b.last_remote_counter := by
  by_cases hd : ∃ s ∈ b.buf, rt s = rt x
  · rw [Buffer.insert_of_dup rt b x hd]
    exact ⟨rfl, rfl, rfl⟩
  · rw [Buffer.insert_of_new rt b x hd]
    exact ⟨rfl, rfl, rfl⟩

theorem Buffer.insert_snapshot_eq_nil {T : Type} (rt : T → ℝ) (b : Buffer T)
    (now : ℝ) (x : T) (h : (Buffer.insert rt b x).buf = []) :
    Buffer.insert_snapshot rt b now x = Buffer.insert rt b x := by
  simp only [Buffer.insert_snapshot, h]

theorem Buffer.insert_snapshot_eq_cons {T : Type} (rt : T → ℝ) (b : Buffer T)
    (now : ℝ) (x f : T) (rest : List T)
    (h : (Buffer.insert rt b x).buf = f :: rest) :
    Buffer.insert_snapshot rt b now x =
      (let b1 := Buffer.insert rt b x
       let b2 :=
         match rest with
         | [] => b1
         | ss_from :: _ =>
           { b1 with remote_delta_time :=
               b1.remote_delta_time.add (rt f - rt ss_from) }
       { b2 with
         last_remote_instant := now
         last_remote_time := rt f
         last_remote_counter := (b2.last_remote_counter + 1) % 2 ^ 128 }) := by
  simp only [Buffer.insert_snapshot, h]

/-- C1 counterexample: the buffer holds one snapshot at remote time 10
with counter 5 and instant 0; inserting a duplicate at remote time 10
leaves the stored sequence (hence the front) unchanged, yet the call
bumps last_remote_counter to 6 and last_remote_instant to the current
clock reading 7, contradicting the claim that an insertion that does
not produce a new front leaves the last_remote fields unchanged. -/
theorem C1_counterexample :
    (Buffer.insert_snapshot TestSnap.time wB1 7 ⟨10, 2⟩).buf = wB1.buf ∧
    wB1.last_remote_counter = 5 ∧
    (Buffer.insert_snapshot TestSnap.time wB1 7 ⟨10, 2⟩).last_remote_counter = 6 ∧
    wB1.last_remote_instant = 0 ∧
    (Buffer.insert_snapshot TestSnap.time wB1 7 ⟨10, 2⟩).last_remote_instant = 7 := by
  refine ⟨?_, rfl, ?_, rfl, ?_⟩
  · rw [Buffer.insert_snapshot_buf,
      Buffer.insert_of_dup TestSnap.time wB1 ⟨10, 2⟩ (by norm_num [wB1])]
  · simp only [Buffer.insert_snapshot]
    norm_num [Buffer.insert_of_dup, wB1]
  · simp only [Buffer.insert_snapshot]
    norm_num [Buffer.insert_of_dup, wB1]

/-- C1 amended: every insert_snapshot call that leaves the buffer
non-empty — duplicates and interior or back insertions included — sets
last_remote_instant to the current clock reading, last_remote_time to
the remote time of the current front, and increments the wrapping
last_remote_counter, whether or not the inserted snapshot became the
new front; only a call that leaves the buffer empty (possible only
with capacity zero) leaves the three fields unchanged. -/
theorem C1_insert_snapshot_meta {T : Type} (rt : T → ℝ) (b : Buffer T)
    (now : ℝ) (x : T) :
    ((Buffer.insert_snapshot rt b now x).buf = [] →
      (Buffer.insert_snapshot rt b now x).last_remote_time = b.last_remote_time ∧
      (Buffer.insert_snapshot rt b now x).last_remote_instant = b.last_remote_instant ∧
      (Buffer.insert_snapshot rt b now x).last_remote_counter = b.last_remote_counter) ∧
    (∀ f, (Buffer.insert_snapshot rt b now x).buf.head? = some f →
      (Buffer.insert_snapshot rt b now x).last_remote_time = rt f ∧
      (Buffer.insert_snapshot rt b now x).last_remote_instant = now ∧
      (Buffer.insert_snapshot rt b now x).last_remote_counter =
        (b.last_remote_counter + 1) % 2 ^ 128) := by
  constructor
  · intro h0
    rw [Buffer.insert_snapshot_buf] at h0
    rw [Buffer.insert_snapshot_eq_nil rt b now x h0]
    exact Buffer.insert_meta rt b x
  · intro f hf
    rw [Buffer.insert_snapshot_buf] at hf
    obtain ⟨rest, h⟩ : ∃ rest, (Buffer.insert rt b x).buf = f :: rest := by
      cases hb : (Buffer.insert rt b x).buf with
      | nil => rw [hb] at hf; simp at hf
      | cons a as =>
        rw [hb] at hf
        simp only [List.head?_cons, Option.some.injEq] at hf
        exact ⟨as, by rw [hf]⟩
    rw [Buffer.insert_snapshot_eq_cons rt b now x f rest h]
    have hc := (Buffer.insert_meta rt b x).2.2
    cases rest with
    | nil => exact ⟨rfl, rfl, by simp only; rw [hc]⟩
    | cons a as => exact ⟨rfl, rfl, by simp only; rw [hc]⟩

/-- C1 witness: the amended statement evaluated on the concrete
duplicate insertion of the counterexample. -/
theorem C1_insert_snapshot_meta_w :
    (Buffer.insert_snapshot TestSnap.time wB1 7 ⟨10, 2⟩).last_remote_time =
      TestSnap.time ⟨10, 1⟩ ∧
    (Buffer.insert_snapshot TestSnap.time wB1 7 ⟨10, 2⟩).last_remote_instant = 7 ∧
    (Buffer.insert_snapshot TestSnap.time wB1 7 ⟨10, 2⟩).last_remote_counter =
      (wB1.last_remote_counter + 1) % 2 ^ 128 :=
  (C1_insert_snapshot_meta TestSnap.time wB1 7 ⟨10, 2⟩).2 ⟨10, 1⟩ (by
    rw [Buffer.insert_snapshot_buf,
      Buffer.insert_of_dup TestSnap.time wB1 ⟨10, 2⟩ (by norm_num [wB1])]
    norm_num [wB1])

theorem insertOrdered_append_of_oldest {T : Type} (rt : T → ℝ) (x : T)
    (l : List T) (h : ∀ s ∈ l, ¬ rt s < rt x) :
    insertOrdered rt x l = l ++ [x] := by
  induction l with
  | nil => rfl
  | cons s rest ih =>
    rw [insertOrdered, if_neg (h s (List.mem_cons_self s rest))]
    rw [ih (fun t ht => h t (List.mem_cons_of_mem s ht))]
    rfl

/-- C7 counterexample: a buffer with capacity 10 holding one snapshot
at remote time 20 receives a snapshot at remote time 10, strictly older
than the oldest retained; far from being dropped, the old snapshot is
appended at the back and the stored sequence changes. -/
theorem C7_counterexample :
    (Buffer.insert_snapshot TestSnap.time wB1 3 ⟨5, 2⟩).buf =
      [⟨10, 1⟩, ⟨5, 2⟩] ∧
    (Buffer.insert_snapshot TestSnap.time wB1 3 ⟨5, 2⟩).buf ≠ wB1.buf := by
  have hb : (Buffer.insert_snapshot TestSnap.time wB1 3 ⟨5, 2⟩).buf =
      [⟨10, 1⟩, ⟨5, 2⟩] := by
    rw [Buffer.insert_snapshot_buf]
    norm_num [Buffer.insert, findPos, wB1, List.insertIdx]
  refine ⟨hb, ?_⟩
  rw [hb]
  norm_num [wB1]

/-- C7 amended: inserting a snapshot strictly older than every retained
snapshot into a non-empty buffer appends it at the back; the stored
sequence is left unchanged only when the buffer was already at
capacity, in which case the eviction immediately removes the appended
snapshot again; below capacity the old snapshot is retained as the new
back.  The call itself is total and never fails. -/
theorem C7_insert_oldest {T : Type} (rt : T → ℝ) (b : Buffer T) (now : ℝ)
    (x : T) (hold : ∀ s ∈ b.buf, rt x < rt s) :
    (Buffer.insert_snapshot rt b now x).buf =
      if b.buf.length + 1 > b.buf_len then b.buf else b.buf ++ [x] := by
  have hdup : ¬ ∃ s ∈ b.buf, rt s = rt x := by
    rintro ⟨s, hs, he⟩
    exact absurd he (ne_of_gt (hold s hs))
  rw [Buffer.insert_snapshot_buf, Buffer.insert_of_new rt b x hdup]
  have happ : insertOrdered rt x b.buf = b.buf ++ [x] :=
    insertOrdered_append_of_oldest rt x b.buf
      (fun s hs => not_lt.mpr (le_of_lt (hold s hs)))
  show (if (insertOrdered rt x b.buf).length > b.buf_len then
      (insertOrdered rt x b.buf).dropLast else insertOrdered rt x b.buf) = _
  rw [happ, List.length_append]
  by_cases hl : b.buf.length + 1 > b.buf_len
  · rw [if_pos (by simpa using hl), if_pos hl]
    exact List.dropLast_concat
  · rw [if_neg (by simpa using hl), if_neg hl]

/-- C7 witness: the amended statement evaluated on the concrete
below-capacity insertion of the counterexample (the snapshot is
retained at the back) and on a full buffer (the sequence is unchanged). -/
theorem C7_insert_oldest_w :
    (Buffer.insert_snapshot TestSnap.time wB1 3 ⟨5, 2⟩).buf =
      (if wB1.buf.length + 1 > wB1.buf_len then wB1.buf else wB1.buf ++ [⟨5, 2⟩]) ∧
    (Buffer.insert_snapshot TestSnap.time wB3 3 ⟨0, 9⟩).buf =
      (if wB3.buf.length + 1 > wB3.buf_len then wB3.buf else wB3.buf ++ [⟨0, 9⟩]) :=
  ⟨C7_insert_oldest TestSnap.time wB1 3 ⟨5, 2⟩ (by norm_num [wB1]),
    C7_insert_oldest TestSnap.time wB3 3 ⟨0, 9⟩ (by norm_num [wB3])⟩

/-- C8: inserting a snapshot whose remote_time equals that of an
already-held snapshot leaves the stored sequence exactly as it was
(first arrival wins); concretely, inserting remote times
10, 20, 40, 40, 30 into a fresh default buffer yields front-to-back
remote times [40, 30, 20, 10], with the payload of the first-arriving
snapshot of time 40 retained and the duplicate payload absent. -/
theorem C8_duplicate_suppression :
    (∀ (T : Type) (rt : T → ℝ) (b : Buffer T) (now : ℝ) (x : T),
      (∃ s ∈ b.buf, rt s = rt x) →
      (Buffer.insert_snapshot rt b now x).buf = b.buf) ∧
    ((applyInserts TestSnap.time (Buffer.new TestSnap SNAPSHOT_SETTINGS_DEFAULT 0)
        [(0, ⟨10, 1⟩), (0, ⟨20, 2⟩), (0, ⟨40, 4⟩), (0, ⟨40, 9⟩),
          (0, ⟨30, 3⟩)]).buf.map TestSnap.time = [40, 30, 20, 10] ∧
      (applyInserts TestSnap.time (Buffer.new TestSnap SNAPSHOT_SETTINGS_DEFAULT 0)
        [(0, ⟨10, 1⟩), (0, ⟨20, 2⟩), (0, ⟨40, 4⟩), (0, ⟨40, 9⟩),
          (0, ⟨30, 3⟩)]).buf.map TestSnap.num = [4, 3, 2, 1]) := by
  constructor
  · intro T rt b now x hd
    rw [Buffer.insert_snapshot_buf, Buffer.insert_of_dup rt b x hd]
  · constructor <;>
      norm_num [applyInserts, Buffer.insert_snapshot, Buffer.insert, findPos,
        Buffer.new, SNAPSHOT_SETTINGS_DEFAULT, Settings.send_rate, List.insertIdx]

/-- C8 witness: the duplicate-suppression clause evaluated on a
concrete duplicate insertion. -/
theorem C8_duplicate_suppression_w :
    (Buffer.insert_snapshot TestSnap.time wB1 3 ⟨10, 9⟩).buf = wB1.buf :=
  C8_duplicate_suppression.1 TestSnap TestSnap.time wB1 3 ⟨10, 9⟩
    (by norm_num [wB1])

theorem Playback.step_isSome {T : Type} (rt : T → ℝ) (interp : ℝ → T → T → T)
    (p : Playback) (dt now : ℝ) (b : Buffer T) (h : b.buf ≠ []) :
    ((Playback.step rt interp p dt now b).2).isSome = true := by
  simp only [Playback.step]
  split
  · rfl
  · rw [Buffer.latest]
    cases hb : b.buf with
    | nil => exact absurd hb h
    | cons a as => rfl

/-- C10: as soon as the buffer has capacity at least one, any
insert_snapshot call leaves it non-empty (eviction only fires when the
length exceeds the capacity), so after the first stored snapshot the
buffer never becomes empty again, latest() returns a value, and the
fallback branch of Playback::step always yields a snapshot. -/
theorem C10_never_empty_again {T : Type} (rt : T → ℝ) (b : Buffer T)
    (now : ℝ) (x : T) (hcap : 1 ≤ b.buf_len) :
    (Buffer.insert_snapshot rt b now x).buf ≠ [] ∧
    ((Buffer.insert_snapshot rt b now x).latest).isSome = true ∧
    ∀ (interp : ℝ → T → T → T) (p : Playback) (dt now2 : ℝ),
      ((Playback.step rt interp p dt now2
        (Buffer.insert_snapshot rt b now x)).2).isSome = true := by
  have hne : (Buffer.insert_snapshot rt b now x).buf ≠ [] := by
    rw [Buffer.insert_snapshot_buf]
    by_cases hd : ∃ s ∈ b.buf, rt s = rt x
    · rw [Buffer.insert_of_dup rt b x hd]
      rcases hd with ⟨s, hs, _⟩
      exact List.ne_nil_of_mem hs
    · rw [Buffer.insert_of_new rt b x hd]
      show (if (insertOrdered rt x b.buf).length > b.buf_len then
          (insertOrdered rt x b.buf).dropLast
        else insertOrdered rt x b.buf) ≠ []
      by_cases hl : (insertOrdered rt x b.buf).length > b.buf_len
      · rw [if_pos hl]
        apply List.length_pos.mp
        rw [List.length_dropLast, length_insertOrdered]
        rw [length_insertOrdered] at hl
        omega
      · rw [if_neg hl]
        exact insertOrdered_ne_nil rt x b.buf
  refine ⟨hne, ?_, ?_⟩
  · rw [Buffer.latest]
    cases hb : (Buffer.insert_snapshot rt b now x).buf with
    | nil => exact absurd hb hne
    | cons a as => rfl
  · intro interp p dt now2
    exact Playback.step_isSome rt interp p dt now2 _ hne

/-- C10 witness: the statement evaluated on a concrete insertion into
the one-snapshot buffer. -/
theorem C10_never_empty_again_w :
    (Buffer.insert_snapshot TestSnap.time wB1 3 ⟨7, 4⟩).buf ≠ [] ∧
    ((Buffer.insert_snapshot TestSnap.time wB1 3 ⟨7, 4⟩).latest).isSome = true ∧
    ∀ (interp : ℝ → TestSnap → TestSnap → TestSnap) (p : Playback) (dt now2 : ℝ),
      ((Playback.step TestSnap.time interp p dt now2
        (Buffer.insert_snapshot TestSnap.time wB1 3 ⟨7, 4⟩)).2).isSome = true :=
  C10_never_empty_again TestSnap.time wB1 3 ⟨7, 4⟩ (by norm_num [wB1])

theorem findPos_none_iff {T : Type} (p : T → Prop) (l : List T) :
    findPos p l = none ↔ ∀ s ∈ l, ¬ p s := by
  induction l with
  | nil => simp [findPos]
  | cons s rest ih =>
    rw [findPos_cons]
    by_cases h : p s
    · simp [h]
    · simp [h, ih]

theorem findPos_some {T : Type} (p : T → Prop) (l : List T) (k : ℕ)
    (h : findPos p l = some k) :
    ∃ s, l.get? k = some s ∧ p s ∧
      ∀ j, j < k → ∀ t, l.get? j = some t → ¬ p t := by
  induction l generalizing k with
  | nil => simp [findPos] at h
  | cons s rest ih =>
    rw [findPos_cons] at h
    by_cases hs : p s
    · rw [if_pos hs] at h
      simp only [Option.some.injEq] at h
      subst h
      exact ⟨s, rfl, hs, fun j hj => absurd hj (Nat.not_lt_zero j)⟩
    · rw [if_neg hs] at h
      cases hr : findPos p rest with
      | none => rw [hr] at h; simp at h
      | some i =>
        rw [hr] at h
        simp only [Option.map_some', Option.some.injEq] at h
        subst h
        obtain ⟨t, ht, hpt, hmin⟩ := ih i hr
        refine ⟨t, by simpa using ht, hpt, ?_⟩
        intro j hj u hu
        cases j with
        | zero =>
          simp only [List.get?_cons_zero, Option.some.injEq] at hu
          rw [← hu]
          exact hs
        | succ j2 =>
          rw [List.get?_cons_succ] at hu
          exact hmin j2 (by omega) u hu

theorem descending_get?_lt {T : Type} (rt : T → ℝ) (l : List T)
    (hp : DescendingRT rt l) (i j : ℕ) (hij : i < j) (a c : T)
    (ha : l.get? i = some a) (hc : l.get? j = some c) : rt c < rt a := by
  obtain ⟨hi, ha2⟩ := List.get?_eq_some.mp ha
  obtain ⟨hj, hc2⟩ := List.get?_eq_some.mp hc
  have := List.pairwise_iff_get.mp hp ⟨i, hi⟩ ⟨j, hj⟩ hij
  rw [ha2, hc2] at this
  exact this

/-- C3: with a strictly descending buffer and P the advanced playback
time, the bracketing pair is governed by the first front-to-back index
whose remote time is strictly below P: no such index gives no pair; at
index zero the pair is (second, front) when a second snapshot exists
(else no pair), and both remote times are at most P; at an index k + 1
the pair is (element k + 1, element k) with remote time of the from
snapshot strictly below P and P at most the remote time of the to
snapshot. -/
theorem C3_bracketing_pair {T : Type} (rt : T → ℝ) (P : ℝ) (l : List T)
    (hp : DescendingRT rt l) :
    (findPos (fun s => rt s < P) l = none →
      selectPair l (findPos (fun s => rt s < P) l) = none) ∧
    (findPos (fun s => rt s < P) l = some 0 →
      (l.get? 1 = none → selectPair l (findPos (fun s => rt s < P) l) = none) ∧
      (∀ f t, l.get? 1 = some f → l.get? 0 = some t →
        selectPair l (findPos (fun s => rt s < P) l) = some (f, t) ∧
        rt f ≤ P ∧ rt t ≤ P)) ∧
    (∀ k, findPos (fun s => rt s < P) l = some (k + 1) →
      ∃ f t, l.get? (k + 1) = some f ∧ l.get? k = some t ∧
        selectPair l (findPos (fun s => rt s < P) l) = some (f, t) ∧
        rt f < P ∧ P ≤ rt t) := by
  refine ⟨?_, ?_, ?_⟩
  · intro h
    rw [h]
    rfl
  · intro h
    constructor
    · intro h1
      rw [h]
      simp only [selectPair, ← List.get?_eq_getElem?, h1]
    · intro f t h1 h0
      obtain ⟨s, hs0, hps, _⟩ := findPos_some _ l 0 h
      rw [h0] at hs0
      simp only [Option.some.injEq] at hs0
      have htP : rt t < P := by rw [hs0]; exact hps
      have hfP : rt f < rt t := descending_get?_lt rt l hp 0 1 Nat.zero_lt_one t f h0 h1
      refine ⟨?_, le_of_lt (lt_trans hfP htP), le_of_lt htP⟩
      rw [h]
      simp only [selectPair, ← List.get?_eq_getElem?, h1, h0]
  · intro k h
    obtain ⟨f, hf, hpf, hmin⟩ := findPos_some _ l (k + 1) h
    have hkl : k < l.length := by
      have := (List.get?_eq_some.mp hf).1
      omega
    obtain ⟨t, ht⟩ : ∃ t, l.get? k = some t := by
      rw [List.get?_eq_get hkl]
      exact ⟨_, rfl⟩
    refine ⟨f, t, hf, ht, ?_, hpf, not_lt.mp (hmin k (Nat.lt_succ_self k) t ht)⟩
    rw [h]
    simp only [selectPair, ← List.get?_eq_getElem?, hf, ht]

/-- C3 witness: the overrun branch evaluated on the concrete
two-snapshot buffer with P = 5 newer than both held snapshots. -/
theorem C3_bracketing_pair_w :
    selectPair wB2.buf (findPos (fun s => TestSnap.time s < 5) wB2.buf) =
      some (⟨2, 1⟩, ⟨4, 2⟩) ∧
    TestSnap.time (⟨2, 1⟩ : TestSnap) ≤ 5 ∧
    TestSnap.time (⟨4, 2⟩ : TestSnap) ≤ 5 :=
  ((C3_bracketing_pair TestSnap.time 5 wB2.buf
      (by norm_num [wB2, List.pairwise_cons])).2.1
    (by norm_num [wB2, findPos])).2 ⟨2, 1⟩ ⟨4, 2⟩
    (by norm_num [wB2]) (by norm_num [wB2])

theorem Playback.step_fst {T : Type} (rt : T → ℝ) (interp : ℝ → T → T → T)
    (p : Playback) (dt now : ℝ) (b : Buffer T) :
    (Playback.step rt interp p dt now b).1 = Playback.stepState rt p dt now b :=
  rfl

theorem Playback.step_snd_none {T : Type} (rt : T → ℝ) (interp : ℝ → T → T → T)
    (p : Playback) (dt now : ℝ) (b : Buffer T)
    (h : selectPair b.buf
      (findPos (fun s => rt s < p.playback_time + dt * p.timescale) b.buf) = none) :
    (Playback.step rt interp p dt now b).2 = b.latest := by
  simp only [Playback.step, h]

theorem Playback.step_snd_some {T : Type} (rt : T → ℝ) (interp : ℝ → T → T → T)
    (p : Playback) (dt now : ℝ) (b : Buffer T) (f t : T)
    (h : selectPair b.buf
      (findPos (fun s => rt s < p.playback_time + dt * p.timescale) b.buf) =
        some (f, t)) :
    (Playback.step rt interp p dt now b).2 =
      some (interp (fclamp (linear_map
        (Playback.stepState rt p dt now b).playback_time (rt f) (rt t) 0 1)
        0 (5 / 2)) f t) := by
  simp only [Playback.step, h]

/-- C4: when a bracketing pair was formed, step returns the
caller-supplied interpolation applied at the linear-map parameter
clamped to the interval from 0 to 2.5; when no pair was formed it
returns the newest snapshot as a fallback; and the result is none
exactly when the buffer is empty. -/
theorem C4_step_result {T : Type} (rt : T → ℝ) (interp : ℝ → T → T → T)
    (p : Playback) (dt now : ℝ) (b : Buffer T) :
    (∀ f t, selectPair b.buf
        (findPos (fun s => rt s < p.playback_time + dt * p.timescale) b.buf) =
        some (f, t) →
      (Playback.step rt interp p dt now b).2 =
        some (interp (fclamp (linear_map
          ((Playback.step rt interp p dt now b).1).playback_time
          (rt f) (rt t) 0 1) 0 (5 / 2)) f t)) ∧
    (selectPair b.buf
        (findPos (fun s => rt s < p.playback_time + dt * p.timescale) b.buf) =
        none →
      (Playback.step rt interp p dt now b).2 = b.latest) ∧
    ((Playback.step rt interp p dt now b).2 = none ↔ b.buf = []) := by
  refine ⟨?_, Playback.step_snd_none rt interp p dt now b, ?_⟩
  · intro f t h
    rw [Playback.step_fst]
    exact Playback.step_snd_some rt interp p dt now b f t h
  · constructor
    · intro h
      cases hsel : selectPair b.buf
          (findPos (fun s => rt s < p.playback_time + dt * p.timescale) b.buf) with
      | none =>
        rw [Playback.step_snd_none rt interp p dt now b hsel, Buffer.latest] at h
        exact List.head?_eq_none_iff.mp h
      | some ft =>
        rw [Playback.step_snd_some rt interp p dt now b ft.1 ft.2 (by rw [hsel])] at h
        simp at h
    · intro h
      have hfp : findPos (fun s => rt s < p.playback_time + dt * p.timescale) b.buf =
          none := by
        rw [h]
        rfl
      have hsel : selectPair b.buf
          (findPos (fun s => rt s < p.playback_time + dt * p.timescale) b.buf) =
          none := by
        rw [hfp]
        rfl
      rw [Playback.step_snd_none rt interp p dt now b hsel, Buffer.latest, h]
      rfl

/-- C4 witness: the interpolation branch evaluated on the concrete
two-snapshot buffer with the advanced playback time falling between
the two held remote times. -/
theorem C4_step_result_w :
    (Playback.step TestSnap.time winterp wP 1 11 wB2).2 =
      some (winterp (fclamp (linear_map
        ((Playback.step TestSnap.time winterp wP 1 11 wB2).1).playback_time
        (TestSnap.time ⟨2, 1⟩) (TestSnap.time ⟨4, 2⟩) 0 1) 0 (5 / 2))
        ⟨2, 1⟩ ⟨4, 2⟩) :=
  (C4_step_result TestSnap.time winterp wP 1 11 wB2).1 ⟨2, 1⟩ ⟨4, 2⟩
    (by norm_num [wB2, wP, findPos, selectPair])

/-- C2: on a step that observes a changed last_remote_counter, with the
target defined as last_remote_time plus the local time elapsed since
last_remote_instant minus the dynamic playback offset, the playback
time immediately after the clamp stage is within playback_clamp of the
target, and the clamping EMA is fed 1.0 exactly when the advanced
playback time lay outside the closed clamp interval, else 0.0. -/
theorem C2_clamp_bound {T : Type} (rt : T → ℝ) (interp : ℝ → T → T → T)
    (p : Playback) (dt now : ℝ) (b : Buffer T)
    (hc : p.remote_counter ≠ b.last_remote_counter)
    (hclamp : 0 ≤ p.settings.playback_clamp) :
    |((Playback.step rt interp p dt now b).1).playback_time -
        (b.last_remote_time + (now - b.last_remote_instant) -
          b.dynamic_playback_offset)| ≤ p.settings.playback_clamp ∧
    ((p.playback_time + dt * p.timescale <
        b.last_remote_time + (now - b.last_remote_instant) -
          b.dynamic_playback_offset - p.settings.playback_clamp ∨
      b.last_remote_time + (now - b.last_remote_instant) -
          b.dynamic_playback_offset + p.settings.playback_clamp <
        p.playback_time + dt * p.timescale) →
      ((Playback.step rt interp p dt now b).1).db_clamping_ema =
        p.db_clamping_ema.add 1) ∧
    (¬ (p.playback_time + dt * p.timescale <
        b.last_remote_time + (now - b.last_remote_instant) -
          b.dynamic_playback_offset - p.settings.playback_clamp ∨
      b.last_remote_time + (now - b.last_remote_instant) -
          b.dynamic_playback_offset + p.settings.playback_clamp <
        p.playback_time + dt * p.timescale) →
      ((Playback.step rt interp p dt now b).1).db_clamping_ema =
        p.db_clamping_ema.add 0) := by
  rw [Playback.step_fst]
  simp only [Playback.stepState, if_pos hc]
  set pt := p.playback_time + dt * p.timescale with hpt
  set tgt := b.last_remote_time + (now - b.last_remote_instant) -
    b.dynamic_playback_offset with htgt
  set cl := p.settings.playback_clamp with hcl
  simp only [clampStage]
  by_cases h1 : pt < tgt - cl
  · rw [if_pos h1]
    refine ⟨?_, fun _ => rfl, fun hn => absurd (Or.inl h1) hn⟩
    show |tgt - cl - tgt| ≤ cl
    have he : tgt - cl - tgt = -cl := by ring
    rw [he, abs_neg, abs_of_nonneg hclamp]
  · rw [if_neg h1]
    by_cases h2 : pt > tgt + cl
    · rw [if_pos h2]
      refine ⟨?_, fun _ => rfl, fun hn => absurd (Or.inr h2) hn⟩
      show |tgt + cl - tgt| ≤ cl
      have he : tgt + cl - tgt = cl := by ring
      rw [he, abs_of_nonneg hclamp]
    · rw [if_neg h2]
      refine ⟨?_, fun hn => ?_, fun _ => rfl⟩
      · show |pt - tgt| ≤ cl
        rw [abs_le]
        rw [not_lt] at h1 h2
        exact ⟨by linarith, by linarith⟩
      · rcases hn with hn | hn
        · exact absurd hn h1
        · exact absurd hn h2

/-- C5: on a step that observes a changed last_remote_counter, the new
timescale is playback_slow_speed when the smoothed catch-up value is
below the slow threshold, playback_fast_speed when it is above the
fast threshold, and exactly 1 in the dead band; the scaling EMA is fed
1.0 in the two speed-change cases and 0.0 in the dead band; a step
with an unchanged counter leaves the timescale unchanged. -/
theorem C5_timescale {T : Type} (rt : T → ℝ) (interp : ℝ → T → T → T)
    (p : Playback) (dt now : ℝ) (b : Buffer T) :
    (p.remote_counter ≠ b.last_remote_counter →
      (((Playback.step rt interp p dt now b).1).timescale =
        (if (((Playback.step rt interp p dt now b).1).catchup_time.value.getD 0) <
            p.settings.slow_threshold then p.settings.playback_slow_speed
         else if p.settings.fast_threshold <
            (((Playback.step rt interp p dt now b).1).catchup_time.value.getD 0) then
           p.settings.playback_fast_speed
         else 1) ∧
       ((((Playback.step rt interp p dt now b).1).catchup_time.value.getD 0 <
            p.settings.slow_threshold ∨
         p.settings.fast_threshold <
            ((Playback.step rt interp p dt now b).1).catchup_time.value.getD 0) →
         ((Playback.step rt interp p dt now b).1).db_scaling_ema =
           p.db_scaling_ema.add 1) ∧
       (¬ (((Playback.step rt interp p dt now b).1).catchup_time.value.getD 0 <
            p.settings.slow_threshold ∨
         p.settings.fast_threshold <
            ((Playback.step rt interp p dt now b).1).catchup_time.value.getD 0) →
         ((Playback.step rt interp p dt now b).1).db_scaling_ema =
           p.db_scaling_ema.add 0))) ∧
    (p.remote_counter = b.last_remote_counter →
      ((Playback.step rt interp p dt now b).1).timescale = p.timescale) := by
  rw [Playback.step_fst]
  constructor
  · intro hc
    simp only [Playback.stepState, if_pos hc]
    simp only [timescale_update]
    by_cases h1 : (p.catchup_time.add
        (b.last_remote_time + (now - b.last_remote_instant) -
            b.dynamic_playback_offset -
          (clampStage p.db_clamping_ema (p.playback_time + dt * p.timescale)
              (b.last_remote_time + (now - b.last_remote_instant) -
                  b.dynamic_playback_offset - p.settings.playback_clamp)
              (b.last_remote_time + (now - b.last_remote_instant) -
                  b.dynamic_playback_offset +
                p.settings.playback_clamp)).1)).value.getD 0 <
        p.settings.slow_threshold
    · rw [if_pos h1, if_pos h1]
      exact ⟨rfl, fun _ => rfl, fun hn => absurd (Or.inl h1) hn⟩
    · rw [if_neg h1, if_neg h1]
      by_cases h2 : p.settings.fast_threshold <
          (p.catchup_time.add
            (b.last_remote_time + (now - b.last_remote_instant) -
                b.dynamic_playback_offset -
              (clampStage p.db_clamping_ema (p.playback_time + dt * p.timescale)
                  (b.last_remote_time + (now - b.last_remote_instant) -
                      b.dynamic_playback_offset - p.settings.playback_clamp)
                  (b.last_remote_time + (now - b.last_remote_instant) -
                      b.dynamic_playback_offset +
                    p.settings.playback_clamp)).1)).value.getD 0
      · rw [if_pos h2, if_pos h2]
        exact ⟨rfl, fun _ => rfl, fun hn => absurd (Or.inr h2) hn⟩
      · rw [if_neg h2, if_neg h2]
        exact ⟨rfl, fun hn => hn.elim (fun hx => absurd hx h1)
          (fun hx => absurd hx h2), fun _ => rfl⟩
  · intro he
    have hnn : ¬ p.remote_counter ≠ b.last_remote_counter := fun hx => hx he
    simp only [Playback.stepState, if_neg hnn]

/-- C2 witness: the clamp bound evaluated on the concrete scenario
(counter 3 against 7, zero delta time). -/
theorem C2_clamp_bound_w :
    |((Playback.step TestSnap.time winterp wP 0 10 wB2).1).playback_time -
        (wB2.last_remote_time + ((10 : ℝ) - wB2.last_remote_instant) -
          wB2.dynamic_playback_offset)| ≤ wP.settings.playback_clamp :=
  (C2_clamp_bound TestSnap.time winterp wP 0 10 wB2 (by decide)
    (by norm_num [wP, wSet, Settings.playback_clamp])).1

/-- C5 witness: the timescale equation evaluated on the concrete
scenario. -/
theorem C5_timescale_w :
    ((Playback.step TestSnap.time winterp wP 0 10 wB2).1).timescale =
      (if (((Playback.step TestSnap.time winterp wP 0 10 wB2).1).catchup_time.value.getD 0) <
          wP.settings.slow_threshold then wP.settings.playback_slow_speed
       else if wP.settings.fast_threshold <
          (((Playback.step TestSnap.time winterp wP 0 10 wB2).1).catchup_time.value.getD 0) then
        wP.settings.playback_fast_speed
       else 1) :=
  ((C5_timescale TestSnap.time winterp wP 0 10 wB2).1 (by decide)).1

theorem ema_add_none (e : ExponentialMovingAverage) (v : ℝ)
    (h : e.value = none) : e.add v = { e with value := some v } := by
  simp only [ExponentialMovingAverage.add, h]

theorem ema_add_some (e : ExponentialMovingAverage) (m v : ℝ)
    (h : e.value = some m) :
    e.add v = ⟨e.alpha, (1 - e.alpha) * (e.var + e.alpha * (v - m) * (v - m)),
      Real.sqrt ((1 - e.alpha) * (e.var + e.alpha * (v - m) * (v - m))),
      some (m + e.alpha * (v - m))⟩ := by
  simp only [ExponentialMovingAverage.add, h]

theorem ema_inv (ops : List EmaOp) (e : ExponentialMovingAverage)
    (hv : 0 ≤ e.var) (hs : e.std_dev ^ 2 = e.var)
    (ha0 : 0 ≤ e.alpha) (ha1 : e.alpha ≤ 1) :
    0 ≤ (runOps e ops).var ∧
      (runOps e ops).std_dev ^ 2 = (runOps e ops).var := by
  induction ops generalizing e with
  | nil => exact ⟨hv, hs⟩
  | cons op rest ih =>
    cases op with
    | add v =>
      cases hval : e.value with
      | none =>
        have he := ema_add_none e v hval
        have := ih (e.add v) (by rw [he]; exact hv) (by rw [he]; exact hs)
          (by rw [he]; exact ha0) (by rw [he]; exact ha1)
        rw [he] at this
        simpa [runOps, he] using this
      | some m =>
        have he := ema_add_some e m v hval
        have hv1 : 0 ≤ (1 - e.alpha) * (e.var + e.alpha * (v - m) * (v - m)) := by
          apply mul_nonneg (by linarith)
          have : 0 ≤ e.alpha * (v - m) * (v - m) := by
            rw [mul_assoc]
            exact mul_nonneg ha0 (mul_self_nonneg _)
          linarith
        have := ih (e.add v) (by rw [he]; exact hv1)
          (by rw [he]; exact Real.sq_sqrt hv1)
          (by rw [he]; exact ha0) (by rw [he]; exact ha1)
        simpa [runOps] using this
    | reset =>
      have := ih e.reset (le_refl 0) (by norm_num [ExponentialMovingAverage.reset])
        ha0 ha1
      simpa [runOps, ExponentialMovingAverage.reset] using this

/-- C9 counterexample: with window 0 the smoothing factor is 2, the
variance recursion goes negative after the two samples 5 and 6, and
the square of the standard deviation no longer equals the variance. -/
theorem C9_counterexample :
    (((ExponentialMovingAverage.new 0).add 5).add 6).std_dev ^ 2 ≠
      (((ExponentialMovingAverage.new 0).add 5).add 6).var := by
  norm_num [ExponentialMovingAverage.new, ExponentialMovingAverage.add]
  rw [Real.sqrt_eq_zero_of_nonpos (by norm_num)]
  norm_num

/-- C9 amended: the EMA constructed with window n has smoothing factor
2 / (n + 1); add on an empty EMA only seeds the mean and leaves the
variance and standard deviation untouched (hence zero, variance being
zero in every empty state the library produces); add on a seeded EMA
performs the exponentially weighted update of mean, variance and
standard deviation; after reset, add 5 and add 6 with window 10 the
value is 57 / 11 (approximately 5.1818) and the variance 18 / 121
(approximately 0.1488); and for windows n at least 1 — so that the
smoothing factor is at most 1 — the invariant that the square of the
standard deviation equals the variance holds after every sequence of
operations (for n below 1 the variance recursion can go negative and
the invariant fails, as the counterexample shows). -/
theorem C9_ema (n : ℝ) (hn : 1 ≤ n) :
    (ExponentialMovingAverage.new n).alpha = 2 / (n + 1) ∧
    (∀ (e : ExponentialMovingAverage) (v : ℝ), e.value = none →
      (e.add v).value = some v ∧ (e.add v).var = e.var ∧
        (e.add v).std_dev = e.std_dev) ∧
    (∀ (e : ExponentialMovingAverage) (m v : ℝ), e.value = some m →
      e.add v = ⟨e.alpha, (1 - e.alpha) * (e.var + e.alpha * (v - m) * (v - m)),
        Real.sqrt ((1 - e.alpha) * (e.var + e.alpha * (v - m) * (v - m))),
        some (m + e.alpha * (v - m))⟩) ∧
    ((((ExponentialMovingAverage.new 10).reset.add 5).add 6).value =
        some (57 / 11) ∧
      (((ExponentialMovingAverage.new 10).reset.add 5).add 6).var = 18 / 121 ∧
      |(57 : ℝ) / 11 - 5.1818| < 1 / 10 ^ 4 ∧
      |(18 : ℝ) / 121 - 0.1488| < 1 / 10 ^ 4) ∧
    (∀ ops : List EmaOp,
      (runOps (ExponentialMovingAverage.new n) ops).std_dev ^ 2 =
        (runOps (ExponentialMovingAverage.new n) ops).var) := by
  refine ⟨rfl, ?_, ?_, ?_, ?_⟩
  · intro e v h
    rw [ema_add_none e v h]
    exact ⟨rfl, rfl, rfl⟩
  · intro e m v h
    exact ema_add_some e m v h
  · refine ⟨?_, ?_, by rw [abs_lt]; constructor <;> norm_num,
      by rw [abs_lt]; constructor <;> norm_num⟩
    · norm_num [ExponentialMovingAverage.new, ExponentialMovingAverage.reset,
        ExponentialMovingAverage.add]
    · norm_num [ExponentialMovingAverage.new, ExponentialMovingAverage.reset,
        ExponentialMovingAverage.add]
  · intro ops
    have h0 : (0 : ℝ) < n + 1 := by linarith
    exact (ema_inv ops (ExponentialMovingAverage.new n) (le_refl 0)
      (by norm_num [ExponentialMovingAverage.new])
      (show (0 : ℝ) ≤ 2 / (n + 1) from div_nonneg (by norm_num) (by linarith))
      (show (2 : ℝ) / (n + 1) ≤ 1 from by rw [div_le_one h0]; linarith)).2

/-- C9 witness: the concrete two-sample conjunct extracted from the
amended theorem instantiated at window 10. -/
theorem C9_ema_w :
    (((ExponentialMovingAverage.new 10).reset.add 5).add 6).value =
      some (57 / 11) :=
  ((C9_ema 10 (by norm_num)).2.2.2.1).1

end SnapInterp
